import Mathlib

set_option maxRecDepth 8192

/-!
# Verification of the CSCE313-PA1 client (`src/client.cpp`)

A shallow embedding of the request/response behaviour of `client.cpp`.
The client parses flags, optionally asks the server for a private channel,
issues data-point requests, performs a chunked file transfer, and finally
sends a `QUIT_MSG` on the active channel.

The headers `common.h` and `FIFORequestChannel.h` are not part of the
visible source.  The struct sizes, the default capacity `MAX_MESSAGE` and
the message-type discriminant values below are therefore modelled from the
spec (fixed-width fields of the variants described in the spec's data
model, laid out with the usual LP64 alignment); every theorem that depends
on them does so only symbolically, never on the particular numeric value.
-/

/-- Modelled from the spec: `sizeof(MESSAGE_TYPE)`, the fixed-width
discriminant (a C `enum`, 4 bytes); `common.h` is not under `src/`. -/
def sizeof_MESSAGE_TYPE : Nat := 4

/-- Modelled from the spec: `sizeof(datamsg)` — discriminant, `person_id`,
`time : float64`, `ecg_index`, with LP64 padding; `common.h` is not under
`src/`. -/
def sizeof_datamsg : Nat := 24

/-- Modelled from the spec: `sizeof(filemsg)` — discriminant,
`offset : int64`, `length : int32`, with LP64 padding; `common.h` is not
under `src/`. -/
def sizeof_filemsg : Nat := 24

/-- `sizeof(double)` on the target platform: the reply to a data-point
request is a single `float64`, 8 bytes. -/
def sizeof_double : Nat := 8

/-- `sizeof(__int64_t)`: the reply to the file-length probe, 8 bytes. -/
def sizeof_int64 : Nat := 8

/-- Modelled from the spec: the implementation constant `MAX_MESSAGE`
used as the default buffer capacity (`common.h` is not under `src/`;
the spec only says "default = an implementation constant"). -/
def MAX_MESSAGE : Int := 256

/-- The chunk-length computation of the transfer loop
(`client.cpp:160-161`): `int length = buffercapacity;
if (offset + length > filelen) length = filelen - offset;`. -/
def chunkLen (C L offset : Int) : Int :=
  if offset + C > L then L - offset else C

/-- The transfer loop of `client.cpp:159-183`,
`for (offset = 0; offset < filelen; offset += buffercapacity)`, as the
list of `(offset, length)` pairs of the issued `filemsg` requests.  The
recursion is fuelled; `chunkPairs` supplies fuel `L.toNat`, which is
enough whenever `0 < C` since the offset advances by `C ≥ 1` each
iteration.  (For `C ≤ 0` the source loop never terminates; the embedding
is only claimed faithful for positive capacity, which every theorem about
it assumes.) -/
def chunkIter : Nat → Int → Int → Int → List (Int × Int)
  | 0, _, _, _ => []
  | fuel + 1, C, L, offset =>
    if offset < L then (offset, chunkLen C L offset) :: chunkIter fuel C L (offset + C)
    else []

/-- The `(offset, length)` request pairs issued by the transfer loop for
capacity `C` and file length `L`. -/
def chunkPairs (C L : Int) : List (Int × Int) :=
  chunkIter L.toNat C L 0

/-- Total number of bytes retrieved by a sequence of chunk requests. -/
def chunkSum (ps : List (Int × Int)) : Int :=
  (ps.map Prod.snd).sum

/-- The byte range of `file` a single `(offset, length)` request asks the
server for. -/
def sliceOf (file : List UInt8) (p : Int × Int) : List UInt8 :=
  (file.drop p.1.toNat).take p.2.toNat

/-- The semantics of C's string/`strcpy` reading from a byte buffer: the
bytes up to (excluding) the first NUL.  Used for
`string new_channel_name(buf2)` at `client.cpp:74`. -/
def cstring : List UInt8 → List UInt8
  | [] => []
  | b :: bs => if b = 0 then [] else b :: cstring bs

/-- Little-endian byte encoding of a fixed-width integer field (`w`
bytes), reduced modulo `2 ^ (8 * w)`. -/
def bytesLE (w : Nat) (x : Int) : List UInt8 :=
  (List.range w).map (fun i => UInt8.ofNat (((x.emod (2 ^ (8 * w))).toNat >>> (8 * i)) % 256))

/-- Modelled from the spec: the `FILE` discriminant value fixed by
`common.h` (not under `src/`); its particular value is immaterial. -/
def FILE_MSG_tag : Int := 2

/-- Modelled from the spec: the byte image produced by
`memcpy(buf, &fm, sizeof(filemsg))` at `client.cpp:139/170` —
discriminant, `offset : int64` and `length : int32` in little-endian
order at their LP64 alignments, padding bytes taken to be zero
(`common.h` with the struct layout is not under `src/`). -/
def filemsgStructBytes (offset length : Int) : List UInt8 :=
  bytesLE 4 FILE_MSG_tag ++ List.replicate 4 0 ++ bytesLE 8 offset ++
    bytesLE 4 length ++ List.replicate 4 0

/-- The byte buffer `buf2`/`buf3` a FILE request is sent from
(`client.cpp:137-141` and `167-171`): the fixed struct image followed by
`strcpy`'s copy of the filename and its terminating NUL. -/
def fileReqBytes (offset length : Int) (fname : List UInt8) : List UInt8 :=
  filemsgStructBytes offset length ++ cstring fname ++ [0]

/-- A channel endpoint held by the client: the well-known `"control"`
channel (`client.cpp:61`) or the private channel created by a
NEWCHANNEL request and named by the server's reply (`client.cpp:74-76`). -/
inductive Chan where
  | control : Chan
  | newchan (name : List UInt8) : Chan
deriving DecidableEq

/-- The request messages the client can send.  The `seconds` field of a
data-point request is a C `double`; it is modelled as a rational, which
is exact for every value the client manipulates here (the loop counter
of `client.cpp:101` ranges over the integers `0 .. 999`, on which double
arithmetic is exact; the value `i * 0.004` itself never influences
control flow). -/
inductive Msg where
  | newchannelMsg : Msg
  | quitMsg : Msg
  | dataMsg (person : Int) (seconds : ℚ) (ecgno : Int) : Msg
  | fileMsg (offset : Int) (length : Int) (fname : List UInt8) : Msg
deriving DecidableEq

/-- One observable channel operation of the client: `cwrite` of a request
(`len` = the byte count passed to `cwrite`) or `cread` of a reply
(`len` = the byte count requested). -/
inductive Event where
  | write (ch : Chan) (msg : Msg) (len : Nat) : Event
  | read (ch : Chan) (len : Nat) : Event
deriving DecidableEq

def Event.chan : Event → Chan
  | .write ch _ _ => ch
  | .read ch _ => ch

def Event.isWrite : Event → Bool
  | .write _ _ _ => true
  | .read _ _ => false

def Event.len : Event → Nat
  | .write _ _ n => n
  | .read _ n => n

/-- The client's configuration after `getopt` (`client.cpp:20-49`), with
the source's initial values as defaults.  `t` is a C `double` (from
`atof`), modelled as a rational; the filename is the raw byte string of
the `-f` argument. -/
structure Config where
  p : Int := -1
  t : ℚ := -1
  c : Bool := false
  e : Int := 1
  filename : List UInt8 := []
  buffercapacity : Int := MAX_MESSAGE

/-- The environment a run interacts with: the server's replies that
influence the client's control flow, and whether the two output files
can be opened. -/
structure Env where
  reply30 : List UInt8 := List.replicate 30 0
  filelen : Int := 0
  ofsOpen : Bool := true
  ofs2Open : Bool := true

/-- Outcome of a client run: the sequence of channel operations and the
process exit code (`0` from falling off `main`, `1` from the
`return 1` error paths). -/
structure RunResult where
  trace : List Event
  exitCode : Nat
deriving DecidableEq

/-- One synchronous round trip: `cwrite` of a request immediately
followed by `cread` of its reply — the shape of every exchange in
`client.cpp`. -/
def reqRep (ch : Chan) (m : Msg) (wlen rlen : Nat) : List Event :=
  [.write ch m wlen, .read ch rlen]

/-- The channel all requests after the (optional) NEWCHANNEL exchange are
issued on: `active_chan` of `client.cpp:62,77`.  The new channel's name
is the C string read out of the fixed 30-byte reply buffer `buf2`. -/
def activeChan (cfg : Config) (env : Env) : Chan :=
  if cfg.c then .newchan (cstring (env.reply30.take 30)) else .control

/-- The NEWCHANNEL exchange (`client.cpp:65-79`): the bare
`MESSAGE_TYPE` tag is written, then exactly 30 bytes are read back. -/
def newchannelEvents (cfg : Config) : List Event :=
  if cfg.c then reqRep .control .newchannelMsg sizeof_MESSAGE_TYPE 30 else []

/-- The data-point section (`client.cpp:82-129`).  Returns the events
together with the abort flag of the `return 1` path taken when the CSV
output file cannot be opened (`client.cpp:95-98`).  The single-point
branch runs when `p >= 0 && t >= 0`; otherwise `p >= 0` alone triggers
the 1000-iteration bulk loop, two requests per iteration. -/
def dataEvents (cfg : Config) (active : Chan) (env : Env) : List Event × Bool :=
  if 0 ≤ cfg.p ∧ 0 ≤ cfg.t then
    (reqRep active (.dataMsg cfg.p cfg.t cfg.e) sizeof_datamsg sizeof_double, false)
  else if 0 ≤ cfg.p then
    if env.ofsOpen then
      ((List.range 1000).flatMap (fun i =>
        reqRep active (.dataMsg cfg.p ((i : ℚ) * (4 / 1000)) 1) sizeof_datamsg sizeof_double ++
        reqRep active (.dataMsg cfg.p ((i : ℚ) * (4 / 1000)) 2) sizeof_datamsg sizeof_double),
       false)
    else ([], true)
  else ([], false)

/-- The file-transfer section (`client.cpp:133-186`): length probe
`filemsg(0, 0)` plus filename, an 8-byte `__int64_t` reply, then — if
the output file opens; otherwise the `return 1` path of
`client.cpp:153-156` — one round trip per chunk of the transfer loop,
each reading exactly the requested chunk length. -/
def fileEvents (cfg : Config) (active : Chan) (env : Env) : List Event × Bool :=
  if cfg.filename ≠ [] then
    if env.ofs2Open then
      (reqRep active (.fileMsg 0 0 cfg.filename)
          (sizeof_filemsg + cfg.filename.length + 1) sizeof_int64 ++
        (chunkPairs cfg.buffercapacity env.filelen).flatMap (fun pr =>
          reqRep active (.fileMsg pr.1 pr.2 cfg.filename)
            (sizeof_filemsg + cfg.filename.length + 1) pr.2.toNat),
       false)
    else
      (reqRep active (.fileMsg 0 0 cfg.filename)
        (sizeof_filemsg + cfg.filename.length + 1) sizeof_int64, true)
  else ([], false)

/-- The whole client run (`main` of `client.cpp`): optional NEWCHANNEL
exchange, data-point section, file section, and — only when neither
error path returned early — the final `QUIT_MSG` written on the active
channel (`client.cpp:190-192`).  The `fork`/`exec` of the server child
and all printing/disk output are glue external to the channel protocol
and are not part of the trace. -/
def clientRun (cfg : Config) (env : Env) : RunResult :=
  if (dataEvents cfg (activeChan cfg env) env).2 then
    ⟨newchannelEvents cfg ++ (dataEvents cfg (activeChan cfg env) env).1, 1⟩
  else if (fileEvents cfg (activeChan cfg env) env).2 then
    ⟨newchannelEvents cfg ++ (dataEvents cfg (activeChan cfg env) env).1 ++
      (fileEvents cfg (activeChan cfg env) env).1, 1⟩
  else
    ⟨newchannelEvents cfg ++ (dataEvents cfg (activeChan cfg env) env).1 ++
      (fileEvents cfg (activeChan cfg env) env).1 ++
      [.write (activeChan cfg env) .quitMsg sizeof_MESSAGE_TYPE], 0⟩

def isQuitWrite : Event → Bool
  | .write _ .quitMsg _ => true
  | _ => false

def isFileWrite : Event → Bool
  | .write _ (.fileMsg _ _ _) _ => true
  | _ => false

/-- A FILE request carrying the zero length of the reserved
"report total length only" sentinel. -/
def isZeroFileWrite : Event → Bool
  | .write _ (.fileMsg _ l _) _ => decide (l = 0)
  | _ => false

/-- Every data-point request is written with the fixed `datamsg` size. -/
def dataWriteLenOk : Event → Bool
  | .write _ (.dataMsg _ _ _) n => decide (n = sizeof_datamsg)
  | _ => true

/-- `b` is a legal successor of `a` for the data-point exchange: a
data-point request must be immediately followed by the 8-byte `double`
reply on the same channel. -/
def dpFollows (a b : Event) : Bool :=
  match a with
  | .write ch (.dataMsg _ _ _) _ => decide (b = Event.read ch sizeof_double)
  | _ => true

/-- Filter for the operations the client performs on channel `ch`. -/
def byChan (ch : Chan) (e : Event) : Bool := decide (e.chan = ch)

/-- The one-outstanding-request automaton for a single channel:
`some false` = idle, `some true` = one request awaiting its reply,
`none` = the discipline was violated (a second write while one request
is outstanding, or a read with nothing outstanding). -/
def syncStep : Option Bool → Event → Option Bool
  | none, _ => none
  | some false, e => if e.isWrite then some true else none
  | some true, e => if e.isWrite then none else some false

def syncRun (s : Option Bool) (l : List Event) : Option Bool :=
  l.foldl syncStep s

/-- The request/reply block structure every section of `client.cpp`
produces: a sequence of `reqRep` round trips.  Each block additionally
records that a data-point request uses the `datamsg` size with an
8-byte reply, and that no round-trip request is the QUIT tag. -/
inductive Blocks : List Event → Prop where
  | nil : Blocks []
  | cons (ch : Chan) (m : Msg) (wl rl : Nat) {rest : List Event}
      (hdata : ∀ p s g, m = Msg.dataMsg p s g → wl = sizeof_datamsg ∧ rl = sizeof_double)
      (hq : m ≠ Msg.quitMsg)
      (h : Blocks rest) : Blocks (reqRep ch m wl rl ++ rest)

/-- Shape of every FILE request in a trace: it names `fname` and is
written with the byte count `sizeof(filemsg) + strlen(fname) + 1`
computed at `client.cpp:136/167`. -/
def fileWriteShape (fname : List UInt8) (e : Event) : Prop :=
  ∀ ch o l f n, e = Event.write ch (Msg.fileMsg o l f) n →
    f = fname ∧ n = sizeof_filemsg + fname.length + 1

/-- The file-chunk completeness property of spec §8: the request
sequence starts at offset 0, each chunk is `min(C, L - offset)`, each
next offset is the previous offset plus the previous chunk, the last
request ends exactly at `L`, and the requested slices concatenate back
to the whole file. -/
def ChunkSequenceSpec (C L : Int) (file : List UInt8) : Prop :=
  (chunkPairs C L).head?.map Prod.fst = some 0 ∧
  (∀ p ∈ chunkPairs C L, p.2 = min C (L - p.1)) ∧
  List.Chain' (fun a b : Int × Int => b.1 = a.1 + a.2) (chunkPairs C L) ∧
  (chunkPairs C L).getLast?.map (fun p => p.1 + p.2) = some L ∧
  ((chunkPairs C L).map (sliceOf file)).flatten = file

/-- The data-point exchange discipline over a trace: every DATAPOINT
request is written with the fixed `datamsg` size, and is immediately
followed by the read of a single 8-byte `double` on the same channel. -/
def DataPointSpec (tr : List Event) : Prop :=
  (∀ e ∈ tr, dataWriteLenOk e = true) ∧
  List.Chain' (fun a b => dpFollows a b = true) tr

/-- Every FILE request in the trace — the length probe as much as every
chunk request — names the configured file and is written with the byte
count `sizeof(filemsg) + strlen(filename) + 1`, which is exactly the
length of its encoded buffer: the fixed struct image immediately
followed by the NUL-terminated filename. -/
def FileReqSpec (fname : List UInt8) (tr : List Event) : Prop :=
  ∀ e ∈ tr, ∀ ch o l f n, e = Event.write ch (Msg.fileMsg o l f) n →
    f = fname ∧ n = sizeof_filemsg + fname.length + 1 ∧
    fileReqBytes o l f = filemsgStructBytes o l ++ (f ++ [0]) ∧
    (fileReqBytes o l f).length = n

/-- C4 invariant bundle for a file-transfer session: the only FILE
request with length 0 is the single initial length probe, every chunk
request has a length of at least 1, and the chunk lengths sum to
exactly the received total length — the loop stops exactly when the
retrieved byte count reaches it. -/
def ProbeOnlySpec (cfg : Config) (active : Chan) (env : Env) : Prop :=
  (fileEvents cfg active env).1.filter isZeroFileWrite =
    [Event.write active (Msg.fileMsg 0 0 cfg.filename)
      (sizeof_filemsg + cfg.filename.length + 1)] ∧
  (∀ p ∈ chunkPairs cfg.buffercapacity env.filelen, 1 ≤ p.2) ∧
  chunkSum (chunkPairs cfg.buffercapacity env.filelen) = env.filelen

/-- A FILE request with non-zero length: a chunk request of the
transfer loop (the probe is the FILE request with length 0). -/
def isChunkFileWrite : Event → Bool
  | .write _ (.fileMsg _ l _) _ => decide (l ≠ 0)
  | _ => false

/-- Every chunk issued by the transfer loop has a positive length
bounded by the capacity. -/
def ChunkBoundSpec (C L : Int) : Prop :=
  ∀ p ∈ chunkPairs C L, 0 < p.2 ∧ p.2 ≤ C

/-- With `-c`, every operation after the NEWCHANNEL exchange (the first
two trace events) happens on the private channel; any QUIT write
targets the active channel only; the control channel never carries a
QUIT; and the active channel is not the control channel. -/
def NewChannelSwitchSpec (cfg : Config) (env : Env) : Prop :=
  (∀ e ∈ (clientRun cfg env).trace.drop 2, e.chan = activeChan cfg env) ∧
  (∀ e ∈ (clientRun cfg env).trace, isQuitWrite e = true →
    e = Event.write (activeChan cfg env) Msg.quitMsg sizeof_MESSAGE_TYPE) ∧
  (∀ e ∈ (clientRun cfg env).trace, e.chan = Chan.control → isQuitWrite e = false) ∧
  activeChan cfg env ≠ Chan.control

/-- The NEWCHANNEL request is written as exactly the fixed-width type
tag with no payload; the reply is read as a fixed 30-byte block
(`char buf2[30]; chan.cread(buf2, 30)`) regardless of the configured
capacity; the new channel's name is the C string — the bytes up to the
first NUL — of that block. -/
def NewChannelCreateSpec (cfg : Config) (env : Env) : Prop :=
  (clientRun cfg env).trace.take 2 =
    [Event.write Chan.control Msg.newchannelMsg sizeof_MESSAGE_TYPE,
      Event.read Chan.control 30] ∧
  sizeof_MESSAGE_TYPE = 4 ∧
  activeChan cfg env = Chan.newchan ((env.reply30.take 30).takeWhile (fun b => b != 0))

theorem chunkLen_eq_min (C L offset : Int) : chunkLen C L offset = min C (L - offset) := by
  unfold chunkLen
  split <;> omega

theorem chunkIter_zero (C L offset : Int) : chunkIter 0 C L offset = [] := rfl

theorem chunkIter_succ_pos (fuel : Nat) (C L offset : Int) (h : offset < L) :
    chunkIter (fuel + 1) C L offset =
      (offset, chunkLen C L offset) :: chunkIter fuel C L (offset + C) := by
  simp [chunkIter, h]

theorem chunkIter_succ_neg (fuel : Nat) (C L offset : Int) (h : ¬ offset < L) :
    chunkIter (fuel + 1) C L offset = [] := by
  simp [chunkIter, h]

theorem chunkIter_stop (fuel : Nat) (C L offset : Int) (h : ¬ offset < L) :
    chunkIter fuel C L offset = [] := by
  cases fuel with
  | zero => rfl
  | succ n => exact chunkIter_succ_neg n C L offset h

/-- Every issued pair carries the loop's chunk-length formula and an
offset inside `[offset, L)`. -/
theorem chunkIter_mem (fuel : Nat) :
    ∀ (C L offset : Int), 0 < C → ∀ p ∈ chunkIter fuel C L offset,
      offset ≤ p.1 ∧ p.1 < L ∧ p.2 = chunkLen C L p.1 := by
  induction fuel with
  | zero => intro C L offset _ p hp; simp [chunkIter] at hp
  | succ n ih =>
    intro C L offset hC p hp
    by_cases h : offset < L
    · rw [chunkIter_succ_pos n C L offset h, List.mem_cons] at hp
      rcases hp with hp | hp
      · subst hp; exact ⟨le_refl _, h, rfl⟩
      · obtain ⟨h1, h2, h3⟩ := ih C L (offset + C) hC p hp
        exact ⟨by omega, h2, h3⟩
    · rw [chunkIter_succ_neg n C L offset h] at hp
      simp at hp

/-- The head of a non-empty run of the loop. -/
theorem chunkIter_head (fuel : Nat) (C L offset : Int) (h : offset < L) :
    (chunkIter (fuel + 1) C L offset).head? = some (offset, chunkLen C L offset) := by
  rw [chunkIter_succ_pos fuel C L offset h]; rfl

/-- Consecutive issued requests: the next offset is the previous offset
plus the previous chunk length (for positive capacity). -/
theorem chunkIter_chain (fuel : Nat) :
    ∀ (C L offset : Int), 0 < C →
      List.Chain' (fun a b : Int × Int => b.1 = a.1 + a.2) (chunkIter fuel C L offset) := by
  induction fuel with
  | zero => intro C L offset _; simp [chunkIter]
  | succ n ih =>
    intro C L offset hC
    by_cases h : offset < L
    · rw [chunkIter_succ_pos n C L offset h]
      rw [List.chain'_cons']
      refine ⟨?_, ih C L (offset + C) hC⟩
      intro q hq
      cases n with
      | zero => simp [chunkIter] at hq
      | succ m =>
        by_cases h2 : offset + C < L
        · rw [chunkIter_head m C L (offset + C) h2] at hq
          simp at hq
          subst hq
          have : chunkLen C L offset = C := by unfold chunkLen; omega
          simp [this]
        · rw [chunkIter_succ_neg m C L (offset + C) h2] at hq
          simp at hq
    · rw [chunkIter_succ_neg n C L offset h]
      simp

/-- With enough fuel the loop retrieves exactly the bytes from `offset`
to `L` (and nothing when `offset ≥ L`). -/
theorem chunkIter_sum (fuel : Nat) :
    ∀ (C L offset : Int), 0 < C → (L - offset).toNat ≤ fuel →
      chunkSum (chunkIter fuel C L offset) = max (L - offset) 0 := by
  induction fuel with
  | zero =>
    intro C L offset hC hfuel
    simp [chunkIter, chunkSum]
    omega
  | succ n ih =>
    intro C L offset hC hfuel
    by_cases h : offset < L
    · rw [chunkIter_succ_pos n C L offset h]
      have hrec := ih C L (offset + C) hC (by omega)
      simp [chunkSum] at hrec ⊢
      rw [hrec]
      unfold chunkLen
      split <;> omega
    · rw [chunkIter_succ_neg n C L offset h]
      simp [chunkSum]
      omega

/-- The last issued request ends exactly at `L`. -/
theorem chunkIter_last (fuel : Nat) :
    ∀ (C L offset : Int), 0 < C → (L - offset).toNat ≤ fuel →
      ∀ p ∈ (chunkIter fuel C L offset).getLast?, p.1 + p.2 = L := by
  induction fuel with
  | zero =>
    intro C L offset hC hfuel p hp
    simp [chunkIter] at hp
  | succ n ih =>
    intro C L offset hC hfuel p hp
    by_cases h : offset < L
    · rw [chunkIter_succ_pos n C L offset h] at hp
      by_cases hrest : chunkIter n C L (offset + C) = []
      · rw [hrest] at hp
        simp at hp
        have hstop : ¬ offset + C < L := by
          intro hlt
          cases n with
          | zero => omega
          | succ m => rw [chunkIter_succ_pos m C L (offset + C) hlt] at hrest; simp at hrest
        subst hp
        unfold chunkLen
        split <;> omega
      · obtain ⟨q, qs, hqs⟩ := List.exists_cons_of_ne_nil hrest
        rw [hqs, List.getLast?_cons_cons] at hp
        exact ih C L (offset + C) hC (by omega) p (by rw [hqs]; exact hp)
    · rw [chunkIter_succ_neg n C L offset h] at hp
      simp at hp

/-- Concatenating the requested slices in order reproduces the suffix of
the file starting at `offset`. -/
theorem chunkIter_concat (fuel : Nat) :
    ∀ (C L offset : Int) (file : List UInt8), 0 < C → 0 ≤ offset →
      (L - offset).toNat ≤ fuel → file.length = L.toNat →
      ((chunkIter fuel C L offset).map (sliceOf file)).flatten = file.drop offset.toNat := by
  induction fuel with
  | zero =>
    intro C L offset file hC hoff hfuel hfile
    rw [chunkIter_zero]
    have : file.drop offset.toNat = [] := List.drop_eq_nil_of_le (by omega)
    simp [this]
  | succ n ih =>
    intro C L offset file hC hoff hfuel hfile
    by_cases h : offset < L
    · rw [chunkIter_succ_pos n C L offset h]
      simp only [List.map_cons, List.flatten_cons, sliceOf]
      rw [ih C L (offset + C) file hC (by omega) (by omega) hfile]
      by_cases hlast : offset + C > L
      · have hck : chunkLen C L offset = L - offset := by unfold chunkLen; omega
        rw [hck]
        have hdrop : file.drop (offset + C).toNat = [] :=
          List.drop_eq_nil_of_le (by omega)
        rw [hdrop, List.append_nil]
        exact List.take_of_length_le (by simp; omega)
      · have hck : chunkLen C L offset = C := by unfold chunkLen; omega
        rw [hck]
        have h1 : (offset + C).toNat = offset.toNat + C.toNat := by omega
        rw [h1, ← List.drop_drop]
        exact List.take_append_drop C.toNat (file.drop offset.toNat)
    · rw [chunkIter_succ_neg n C L offset h]
      have : file.drop offset.toNat = [] := List.drop_eq_nil_of_le (by omega)
      simp [this]

theorem cstring_eq_takeWhile (bs : List UInt8) :
    cstring bs = bs.takeWhile (fun b => b != 0) := by
  induction bs with
  | nil => rfl
  | cons b rest ih =>
    by_cases h : b = 0
    · simp [cstring, List.takeWhile_cons, h]
    · simp [cstring, List.takeWhile_cons, h, ih]

theorem cstring_eq_self (bs : List UInt8) (h : (0 : UInt8) ∉ bs) : cstring bs = bs := by
  induction bs with
  | nil => rfl
  | cons b rest ih =>
    simp only [List.mem_cons, not_or] at h
    have hb : ¬ b = 0 := fun heq => h.1 heq.symm
    simp [cstring, hb, ih h.2]

theorem length_bytesLE (w : Nat) (x : Int) : (bytesLE w x).length = w := by
  simp [bytesLE]

theorem length_filemsgStructBytes (offset length : Int) :
    (filemsgStructBytes offset length).length = sizeof_filemsg := by
  simp [filemsgStructBytes, length_bytesLE, sizeof_filemsg]

theorem syncRun_append (s : Option Bool) (l1 l2 : List Event) :
    syncRun s (l1 ++ l2) = syncRun (syncRun s l1) l2 :=
  List.foldl_append syncStep s l1 l2

theorem Blocks.single (ch : Chan) (m : Msg) (wl rl : Nat)
    (hdata : ∀ p s g, m = Msg.dataMsg p s g → wl = sizeof_datamsg ∧ rl = sizeof_double)
    (hq : m ≠ Msg.quitMsg) : Blocks (reqRep ch m wl rl) := by
  have h := Blocks.cons ch m wl rl hdata hq Blocks.nil
  rwa [List.append_nil] at h

theorem Blocks.append {l1 l2 : List Event} (h1 : Blocks l1) (h2 : Blocks l2) :
    Blocks (l1 ++ l2) := by
  induction h1 with
  | nil => simpa using h2
  | cons ch m wl rl hdata hq hrest ih =>
    rw [List.append_assoc]
    exact Blocks.cons ch m wl rl hdata hq ih

theorem Blocks.ofFlatMap {α : Type} (xs : List α) (f : α → List Event)
    (h : ∀ x ∈ xs, Blocks (f x)) : Blocks (xs.flatMap f) := by
  induction xs with
  | nil => exact Blocks.nil
  | cons x rest ih =>
    rw [List.flatMap_cons]
    exact (h x (by simp)).append (ih fun y hy => h y (by simp [hy]))

/-- A single round trip keeps the per-channel automaton idle, whichever
channel is observed. -/
theorem syncRun_reqRep (ch ch' : Chan) (m : Msg) (wl rl : Nat) :
    syncRun (some false) ((reqRep ch m wl rl).filter (byChan ch')) = some false := by
  by_cases h : ch = ch' <;>
    simp [reqRep, byChan, Event.chan, syncRun, syncStep, Event.isWrite, h]

/-- A sequence of round-trip blocks keeps every channel's automaton
idle: the one-in-flight discipline holds and every block ends answered. -/
theorem Blocks.balanced {l : List Event} (h : Blocks l) (ch : Chan) :
    syncRun (some false) (l.filter (byChan ch)) = some false := by
  induction h with
  | nil => rfl
  | cons bch m wl rl hdata hq hrest ih =>
    rw [List.filter_append, syncRun_append, syncRun_reqRep]
    exact ih

/-- A sequence of round-trip blocks followed by any suffix that is
`dpFollows`-consistent is `dpFollows`-consistent: in particular every
data-point request inside the blocks is immediately answered by the
8-byte reply on its own channel. -/
theorem Blocks.chain_tail {l : List Event} (h : Blocks l) (tail : List Event)
    (htail : List.Chain' (fun a b => dpFollows a b = true) tail) :
    List.Chain' (fun a b => dpFollows a b = true) (l ++ tail) := by
  induction h with
  | nil => simpa using htail
  | cons bch m wl rl hdata hq hrest ih =>
    rw [List.append_assoc]
    simp only [reqRep, List.cons_append, List.nil_append]
    rw [List.chain'_cons']
    constructor
    · intro q hq2
      simp at hq2
      subst hq2
      cases m with
      | dataMsg p s g =>
        obtain ⟨h1, h2⟩ := hdata p s g rfl
        subst h2
        simp [dpFollows]
      | newchannelMsg => rfl
      | quitMsg => rfl
      | fileMsg o ln f => rfl
    · rw [List.chain'_cons']
      exact ⟨fun q _ => rfl, ih⟩

theorem Blocks.lenOk {l : List Event} (h : Blocks l) :
    ∀ e ∈ l, dataWriteLenOk e = true := by
  induction h with
  | nil => intro e he; simp at he
  | cons bch m wl rl hdata hq hrest ih =>
    intro e he
    simp only [reqRep, List.cons_append, List.nil_append, List.mem_cons] at he
    rcases he with he | he | he
    · subst he
      cases m with
      | dataMsg p s g =>
        obtain ⟨h1, _⟩ := hdata p s g rfl
        subst h1
        simp [dataWriteLenOk]
      | newchannelMsg => rfl
      | quitMsg => rfl
      | fileMsg o ln f => rfl
    · subst he; rfl
    · exact ih e he

theorem Blocks.noQuit {l : List Event} (h : Blocks l) :
    ∀ e ∈ l, isQuitWrite e = false := by
  induction h with
  | nil => intro e he; simp at he
  | cons bch m wl rl hdata hq hrest ih =>
    intro e he
    simp only [reqRep, List.cons_append, List.nil_append, List.mem_cons] at he
    rcases he with he | he | he
    · subst he
      cases m with
      | dataMsg p s g => rfl
      | newchannelMsg => rfl
      | quitMsg => exact absurd rfl hq
      | fileMsg o ln f => rfl
    · subst he; rfl
    · exact ih e he

theorem reqRep_chan (ch : Chan) (m : Msg) (wl rl : Nat) :
    ∀ e ∈ reqRep ch m wl rl, e.chan = ch := by
  intro e he
  simp [reqRep] at he
  rcases he with he | he <;> subst he <;> rfl

theorem fileWriteShape_read (fname : List UInt8) (ch : Chan) (rl : Nat) :
    fileWriteShape fname (Event.read ch rl) := by
  intro ch2 o l f n heq
  cases heq

theorem fileWriteShape_of_ne (fname : List UInt8) (ch : Chan) (m : Msg) (wl : Nat)
    (hm : ∀ o l f, m ≠ Msg.fileMsg o l f) : fileWriteShape fname (Event.write ch m wl) := by
  intro ch2 o l f n heq
  injection heq with h1 h2 h3
  exact absurd h2 (hm o l f)

theorem fileWriteShape_file (fname : List UInt8) (ch : Chan) (o l : Int) (wl : Nat)
    (hw : wl = sizeof_filemsg + fname.length + 1) :
    fileWriteShape fname (Event.write ch (Msg.fileMsg o l fname) wl) := by
  intro ch2 o2 l2 f n heq
  injection heq with h1 h2 h3
  injection h2 with ho hl hf
  subst hf
  exact ⟨rfl, h3 ▸ hw⟩

theorem blocks_newchannelEvents (cfg : Config) : Blocks (newchannelEvents cfg) := by
  unfold newchannelEvents
  split
  · exact Blocks.single _ _ _ _ (fun p s g h => Msg.noConfusion h) (fun h => Msg.noConfusion h)
  · exact Blocks.nil

theorem blocks_dataEvents (cfg : Config) (active : Chan) (env : Env) :
    Blocks (dataEvents cfg active env).1 := by
  unfold dataEvents
  split
  · exact Blocks.single _ _ _ _ (fun p s g h => ⟨rfl, rfl⟩) (fun h => Msg.noConfusion h)
  · split
    · split
      · apply Blocks.ofFlatMap
        intro i hi
        exact (Blocks.single _ _ _ _ (fun p s g h => ⟨rfl, rfl⟩)
            (fun h => Msg.noConfusion h)).append
          (Blocks.single _ _ _ _ (fun p s g h => ⟨rfl, rfl⟩) (fun h => Msg.noConfusion h))
      · exact Blocks.nil
    · exact Blocks.nil

theorem blocks_fileEvents (cfg : Config) (active : Chan) (env : Env) :
    Blocks (fileEvents cfg active env).1 := by
  unfold fileEvents
  split
  · split
    · apply Blocks.append
      · exact Blocks.single _ _ _ _ (fun p s g h => Msg.noConfusion h)
          (fun h => Msg.noConfusion h)
      · apply Blocks.ofFlatMap
        intro pr hpr
        exact Blocks.single _ _ _ _ (fun p s g h => Msg.noConfusion h)
          (fun h => Msg.noConfusion h)
    · exact Blocks.single _ _ _ _ (fun p s g h => Msg.noConfusion h)
        (fun h => Msg.noConfusion h)
  · exact Blocks.nil

theorem newchannelEvents_chan (cfg : Config) :
    ∀ e ∈ newchannelEvents cfg, e.chan = Chan.control := by
  unfold newchannelEvents
  split
  · exact reqRep_chan _ _ _ _
  · intro e he; simp at he

theorem dataEvents_chan (cfg : Config) (active : Chan) (env : Env) :
    ∀ e ∈ (dataEvents cfg active env).1, e.chan = active := by
  unfold dataEvents
  split
  · exact reqRep_chan _ _ _ _
  · split
    · split
      · intro e he
        simp only [List.mem_flatMap] at he
        obtain ⟨i, hi, hmem⟩ := he
        simp only [List.mem_append] at hmem
        rcases hmem with hmem | hmem
        · exact reqRep_chan _ _ _ _ e hmem
        · exact reqRep_chan _ _ _ _ e hmem
      · intro e he; simp at he
    · intro e he; simp at he

theorem fileEvents_chan (cfg : Config) (active : Chan) (env : Env) :
    ∀ e ∈ (fileEvents cfg active env).1, e.chan = active := by
  unfold fileEvents
  split
  · split
    · intro e he
      simp only [List.mem_append] at he
      rcases he with he | he
      · exact reqRep_chan _ _ _ _ e he
      · simp only [List.mem_flatMap] at he
        obtain ⟨pr, hpr, hmem⟩ := he
        exact reqRep_chan _ _ _ _ e hmem
    · exact reqRep_chan _ _ _ _
  · intro e he; simp at he

theorem newchannelEvents_fileShape (cfg : Config) (fname : List UInt8) :
    ∀ e ∈ newchannelEvents cfg, fileWriteShape fname e := by
  unfold newchannelEvents
  split
  · intro e he
    simp [reqRep] at he
    rcases he with he | he <;> subst he
    · exact fileWriteShape_of_ne _ _ _ _ (fun o l f h => Msg.noConfusion h)
    · exact fileWriteShape_read _ _ _
  · intro e he; simp at he

theorem dataEvents_fileShape (cfg : Config) (active : Chan) (env : Env) (fname : List UInt8) :
    ∀ e ∈ (dataEvents cfg active env).1, fileWriteShape fname e := by
  have hblk : ∀ (ch : Chan) (p : Int) (s : ℚ) (g : Int) (wl rl : Nat),
      ∀ e ∈ reqRep ch (Msg.dataMsg p s g) wl rl, fileWriteShape fname e := by
    intro ch p s g wl rl e he
    simp [reqRep] at he
    rcases he with he | he <;> subst he
    · exact fileWriteShape_of_ne _ _ _ _ (fun o l f h => Msg.noConfusion h)
    · exact fileWriteShape_read _ _ _
  unfold dataEvents
  split
  · exact hblk _ _ _ _ _ _
  · split
    · split
      · intro e he
        simp only [List.mem_flatMap] at he
        obtain ⟨i, hi, hmem⟩ := he
        simp only [List.mem_append] at hmem
        rcases hmem with hmem | hmem
        · exact hblk _ _ _ _ _ _ e hmem
        · exact hblk _ _ _ _ _ _ e hmem
      · intro e he; simp at he
    · intro e he; simp at he

theorem fileEvents_fileShape (cfg : Config) (active : Chan) (env : Env) :
    ∀ e ∈ (fileEvents cfg active env).1, fileWriteShape cfg.filename e := by
  have hblk : ∀ (o l : Int) (rl : Nat),
      ∀ e ∈ reqRep active (Msg.fileMsg o l cfg.filename)
        (sizeof_filemsg + cfg.filename.length + 1) rl, fileWriteShape cfg.filename e := by
    intro o l rl e he
    simp [reqRep] at he
    rcases he with he | he <;> subst he
    · exact fileWriteShape_file _ _ _ _ _ rfl
    · exact fileWriteShape_read _ _ _
  unfold fileEvents
  split
  · split
    · intro e he
      simp only [List.mem_append] at he
      rcases he with he | he
      · exact hblk _ _ _ e he
      · simp only [List.mem_flatMap] at he
        obtain ⟨pr, hpr, hmem⟩ := he
        exact hblk _ _ _ e hmem
    · exact hblk _ _ _
  · intro e he; simp at he

theorem chunkPairs_mem (C L : Int) (hC : 0 < C) :
    ∀ p ∈ chunkPairs C L, 0 ≤ p.1 ∧ p.1 < L ∧ p.2 = chunkLen C L p.1 ∧ 1 ≤ p.2 ∧ p.2 ≤ C := by
  intro p hp
  obtain ⟨h1, h2, h3⟩ := chunkIter_mem L.toNat C L 0 hC p hp
  refine ⟨h1, h2, h3, ?_, ?_⟩ <;> rw [h3] <;> unfold chunkLen <;> split <;> omega

theorem chunkPairs_sum (C L : Int) (hC : 0 < C) (hL : 0 ≤ L) :
    chunkSum (chunkPairs C L) = L := by
  unfold chunkPairs
  rw [chunkIter_sum L.toNat C L 0 hC (by omega)]
  omega

theorem chunkPairs_nil_of_nonpos (C L : Int) (hL : L ≤ 0) : chunkPairs C L = [] := by
  unfold chunkPairs
  have h : L.toNat = 0 := by omega
  rw [h, chunkIter_zero]

theorem chunkPairs_head (C L : Int) (hL : 0 < L) :
    (chunkPairs C L).head? = some (0, chunkLen C L 0) := by
  unfold chunkPairs
  obtain ⟨n, hn⟩ : ∃ n, L.toNat = n + 1 := ⟨L.toNat - 1, by omega⟩
  rw [hn]
  exact chunkIter_head n C L 0 (by omega)

theorem chunkPairs_last (C L : Int) (hC : 0 < C) :
    ∀ p ∈ (chunkPairs C L).getLast?, p.1 + p.2 = L :=
  chunkIter_last L.toNat C L 0 hC (by omega)

theorem chunkPairs_chain (C L : Int) (hC : 0 < C) :
    List.Chain' (fun a b : Int × Int => b.1 = a.1 + a.2) (chunkPairs C L) :=
  chunkIter_chain L.toNat C L 0 hC

theorem chunkPairs_concat (C L : Int) (file : List UInt8) (hC : 0 < C)
    (hfile : file.length = L.toNat) :
    ((chunkPairs C L).map (sliceOf file)).flatten = file := by
  unfold chunkPairs
  rw [chunkIter_concat L.toNat C L 0 file hC le_rfl (by omega) hfile]
  rfl

/-- C1: for file length `L > 0` and capacity `C > 0`, the FILE chunk
requests issued by the transfer loop of `client.cpp:159-183` satisfy
`offset_0 = 0`, `chunk_i = min(C, L - offset_i)`,
`offset_{i+1} = offset_i + chunk_i`, end exactly at `L` with no overlap
or gap, and their concatenated byte ranges reproduce the file; with
capacity 1024 and length 2500 the loop issues exactly the requests
`(0,1024), (1024,1024), (2048,452)`. -/
theorem chunk_requests_complete (C L : Int) (file : List UInt8)
    (hC : 0 < C) (hL : 0 < L) (hfile : file.length = L.toNat) :
    ChunkSequenceSpec C L file ∧
      chunkPairs 1024 2500 = [(0, 1024), (1024, 1024), (2048, 452)] := by
  refine ⟨⟨?_, ?_, chunkPairs_chain C L hC, ?_, chunkPairs_concat C L file hC hfile⟩, by decide⟩
  · rw [chunkPairs_head C L hL]
    rfl
  · intro p hp
    rw [(chunkPairs_mem C L hC p hp).2.2.1, chunkLen_eq_min]
  · have hne : chunkPairs C L ≠ [] := by
      intro hnil
      have hh := chunkPairs_head C L hL
      rw [hnil] at hh
      cases hh
    obtain ⟨q, qs, hq⟩ := List.exists_cons_of_ne_nil hne
    have hlast := chunkPairs_last C L hC
    rw [hq, List.getLast?_eq_getLast (q :: qs) (by simp)] at hlast ⊢
    have := hlast ((q :: qs).getLast (by simp)) rfl
    simp [this]

theorem chunk_requests_complete_witness :
    (0 : Int) < 4 ∧ (0 : Int) < 10 ∧ (List.replicate 10 (0 : UInt8)).length = (10 : Int).toNat ∧
      (ChunkSequenceSpec 4 10 (List.replicate 10 0) ∧
        chunkPairs 1024 2500 = [(0, 1024), (1024, 1024), (2048, 452)]) :=
  ⟨by decide, by decide, by decide,
    chunk_requests_complete 4 10 (List.replicate 10 0) (by decide) (by decide) (by decide)⟩

/-- C2: on every channel, each request the client writes is answered by
exactly one read before the next write on that channel — the
one-in-flight automaton never reaches its violation state on any
channel's projection of the run, in every mode (data point, bulk,
probe, chunks, NEWCHANNEL; the final QUIT may remain unanswered but is
the last operation of its channel). -/
theorem one_in_flight (cfg : Config) (env : Env) (hC : 0 < cfg.buffercapacity) (ch : Chan) :
    (syncRun (some false) ((clientRun cfg env).trace.filter (byChan ch))).isSome = true := by
  have hP := (blocks_newchannelEvents cfg).balanced ch
  have hD := (blocks_dataEvents cfg (activeChan cfg env) env).balanced ch
  have hF := (blocks_fileEvents cfg (activeChan cfg env) env).balanced ch
  unfold clientRun
  cases hd : (dataEvents cfg (activeChan cfg env) env).2 with
  | true =>
    simp only [hd, if_true]
    rw [List.filter_append, syncRun_append, hP, hD]
    rfl
  | false =>
    cases hf : (fileEvents cfg (activeChan cfg env) env).2 with
    | true =>
      simp only [hd, hf, Bool.false_eq_true, if_false, if_true]
      rw [List.filter_append, List.filter_append, syncRun_append, syncRun_append, hP, hD, hF]
      rfl
    | false =>
      simp only [hd, hf, Bool.false_eq_true, if_false]
      rw [List.filter_append, List.filter_append, List.filter_append,
        syncRun_append, syncRun_append, syncRun_append, hP, hD, hF]
      by_cases hch : activeChan cfg env = ch
      · simp [byChan, Event.chan, syncRun, syncStep, Event.isWrite, hch]
      · simp [byChan, Event.chan, syncRun, syncStep, Event.isWrite, hch]

theorem one_in_flight_witness :
    0 < ({} : Config).buffercapacity ∧
      (syncRun (some false)
        ((clientRun {} {}).trace.filter (byChan Chan.control))).isSome = true :=
  ⟨by decide, one_in_flight {} {} (by decide) Chan.control⟩

/-- Control-flow decomposition of a client run: the trace is the
NEWCHANNEL exchange followed by the data-point section, then — unless
the CSV error path returned early — the file section, then — unless the
output-file error path returned early — the final QUIT write; the exit
code is 1 exactly on the two early-return paths. -/
theorem clientRun_shape (cfg : Config) (env : Env) :
    (((clientRun cfg env).trace =
        newchannelEvents cfg ++ (dataEvents cfg (activeChan cfg env) env).1 ∨
      (clientRun cfg env).trace =
        newchannelEvents cfg ++ (dataEvents cfg (activeChan cfg env) env).1 ++
          (fileEvents cfg (activeChan cfg env) env).1) ∧
      (clientRun cfg env).exitCode = 1) ∨
    ((clientRun cfg env).trace =
        newchannelEvents cfg ++ (dataEvents cfg (activeChan cfg env) env).1 ++
          (fileEvents cfg (activeChan cfg env) env).1 ++
          [Event.write (activeChan cfg env) Msg.quitMsg sizeof_MESSAGE_TYPE] ∧
      (clientRun cfg env).exitCode = 0) := by
  unfold clientRun
  by_cases hd : (dataEvents cfg (activeChan cfg env) env).2 = true
  · rw [if_pos hd]
    exact Or.inl ⟨Or.inl rfl, rfl⟩
  · rw [if_neg hd]
    by_cases hf : (fileEvents cfg (activeChan cfg env) env).2 = true
    · rw [if_pos hf]
      exact Or.inl ⟨Or.inr rfl, rfl⟩
    · rw [if_neg hf]
      exact Or.inr ⟨rfl, rfl⟩

/-- C8: for every DATAPOINT request in any client run, the written byte
sequence is the encoded `datamsg` struct of the fixed known size, and
the reply read for it is a single `float64` of exactly 8 bytes
(`client.cpp:86-89` and `109-120`). -/
theorem data_point_exchange (cfg : Config) (env : Env) (hC : 0 < cfg.buffercapacity) :
    DataPointSpec (clientRun cfg env).trace ∧ sizeof_double = 8 := by
  have hP := blocks_newchannelEvents cfg
  have hD := blocks_dataEvents cfg (activeChan cfg env) env
  have hF := blocks_fileEvents cfg (activeChan cfg env) env
  have hPD := hP.append hD
  have hPDF := hPD.append hF
  refine ⟨⟨?_, ?_⟩, rfl⟩
  · rcases clientRun_shape cfg env with ⟨h1 | h1, _⟩ | ⟨h1, _⟩
    · rw [h1]; exact hPD.lenOk
    · rw [h1]; exact hPDF.lenOk
    · rw [h1]
      intro e he
      rw [List.mem_append] at he
      rcases he with he | he
      · exact hPDF.lenOk e he
      · simp at he; subst he; rfl
  · rcases clientRun_shape cfg env with ⟨h1 | h1, _⟩ | ⟨h1, _⟩
    · rw [h1]
      simpa using hPD.chain_tail [] List.chain'_nil
    · rw [h1]
      simpa using hPDF.chain_tail [] List.chain'_nil
    · rw [h1]
      exact hPDF.chain_tail _ (List.chain'_singleton _)

theorem data_point_exchange_witness :
    0 < ({ p := 3, t := 4 / 1000, e := 2 } : Config).buffercapacity ∧
      (DataPointSpec (clientRun { p := 3, t := 4 / 1000, e := 2 } {}).trace ∧
        sizeof_double = 8) :=
  ⟨by decide, data_point_exchange { p := 3, t := 4 / 1000, e := 2 } {} (by decide)⟩

theorem fileReqBytes_spec (fname : List UInt8) (o l : Int) (hnul : (0 : UInt8) ∉ fname) :
    fileReqBytes o l fname = filemsgStructBytes o l ++ (fname ++ [0]) ∧
      (fileReqBytes o l fname).length = sizeof_filemsg + fname.length + 1 := by
  constructor
  · rw [fileReqBytes, cstring_eq_self fname hnul, List.append_assoc]
  · rw [fileReqBytes, cstring_eq_self fname hnul]
    simp [length_filemsgStructBytes]
    omega

/-- C3: for every FILE request (initial length probe and every chunk
request), the encoded message has total byte length
`sizeof(filemsg) + strlen(filename) + 1`, with the NUL-terminated
filename appended immediately after the fixed struct
(`client.cpp:135-142` and `164-173`).  The no-NUL hypothesis reflects
that the filename comes from a command-line argument, which cannot
contain an interior NUL byte. -/
theorem file_request_encoding (cfg : Config) (env : Env) (hC : 0 < cfg.buffercapacity)
    (hnul : (0 : UInt8) ∉ cfg.filename) :
    FileReqSpec cfg.filename (clientRun cfg env).trace := by
  have hP := newchannelEvents_fileShape cfg cfg.filename
  have hD := dataEvents_fileShape cfg (activeChan cfg env) env cfg.filename
  have hF := fileEvents_fileShape cfg (activeChan cfg env) env
  have key : ∀ e ∈ (clientRun cfg env).trace, fileWriteShape cfg.filename e := by
    rcases clientRun_shape cfg env with ⟨h1 | h1, _⟩ | ⟨h1, _⟩ <;> rw [h1] <;> intro e he
    · rw [List.mem_append] at he
      rcases he with he | he
      · exact hP e he
      · exact hD e he
    · rw [List.mem_append, List.mem_append] at he
      rcases he with (he | he) | he
      · exact hP e he
      · exact hD e he
      · exact hF e he
    · rw [List.mem_append] at he
      rcases he with he | he
      · rw [List.mem_append, List.mem_append] at he
        rcases he with (he | he) | he
        · exact hP e he
        · exact hD e he
        · exact hF e he
      · simp at he
        subst he
        exact fileWriteShape_of_ne _ _ _ _ (fun o l f h => Msg.noConfusion h)
  intro e he ch o l f n heq
  obtain ⟨hf, hn⟩ := key e he ch o l f n heq
  subst hf
  obtain ⟨hb1, hb2⟩ := fileReqBytes_spec cfg.filename o l hnul
  exact ⟨rfl, hn, hb1, hb2.trans hn.symm⟩

theorem file_request_encoding_witness :
    0 < ({ filename := [102, 46, 100, 97, 116] } : Config).buffercapacity ∧
      (0 : UInt8) ∉ ({ filename := [102, 46, 100, 97, 116] } : Config).filename ∧
      FileReqSpec ({ filename := [102, 46, 100, 97, 116] } : Config).filename
        (clientRun { filename := [102, 46, 100, 97, 116] } {}).trace :=
  ⟨by decide, by decide,
    file_request_encoding { filename := [102, 46, 100, 97, 116] } {} (by decide) (by decide)⟩

theorem filter_flatMap_nil {α : Type} (p : Event → Bool) (xs : List α) (f : α → List Event)
    (h : ∀ x ∈ xs, (f x).filter p = []) : (xs.flatMap f).filter p = [] := by
  induction xs with
  | nil => rfl
  | cons x rest ih =>
    rw [List.flatMap_cons, List.filter_append, h x (List.mem_cons_self x rest),
      List.nil_append]
    exact ih fun y hy => h y (List.mem_cons_of_mem x hy)

theorem filter_eq_nil_of (p : Event → Bool) (l : List Event) (h : ∀ e ∈ l, p e = false) :
    l.filter p = [] := by
  induction l with
  | nil => rfl
  | cons x rest ih =>
    simp only [List.filter_cons, h x (List.mem_cons_self x rest), Bool.false_eq_true, if_false]
    exact ih fun e he => h e (List.mem_cons_of_mem x he)

theorem fileEvents_fst_open (cfg : Config) (active : Chan) (env : Env)
    (hf : cfg.filename ≠ []) (ho : env.ofs2Open = true) :
    (fileEvents cfg active env).1 =
      reqRep active (Msg.fileMsg 0 0 cfg.filename)
        (sizeof_filemsg + cfg.filename.length + 1) sizeof_int64 ++
      (chunkPairs cfg.buffercapacity env.filelen).flatMap (fun pr =>
        reqRep active (Msg.fileMsg pr.1 pr.2 cfg.filename)
          (sizeof_filemsg + cfg.filename.length + 1) pr.2.toNat) := by
  unfold fileEvents
  rw [if_pos hf, if_pos ho]

theorem fileEvents_fst_noOpen (cfg : Config) (active : Chan) (env : Env)
    (hf : cfg.filename ≠ []) (ho : env.ofs2Open = false) :
    (fileEvents cfg active env).1 =
      reqRep active (Msg.fileMsg 0 0 cfg.filename)
        (sizeof_filemsg + cfg.filename.length + 1) sizeof_int64 := by
  unfold fileEvents
  rw [if_pos hf, if_neg (by simp [ho])]

theorem fileEvents_snd_open (cfg : Config) (active : Chan) (env : Env)
    (ho : env.ofs2Open = true) : (fileEvents cfg active env).2 = false := by
  unfold fileEvents
  by_cases hf : cfg.filename ≠ []
  · rw [if_pos hf, if_pos ho]
  · rw [if_neg hf]

/-- C4: in a file-transfer session with positive capacity and a
non-negative received total length, the single initial probe
`filemsg(0, 0)` is the only zero-length FILE request, every chunk
request of the loop has length at least 1, and the loop terminates
exactly when the retrieved byte count reaches the total length
(`client.cpp:135-145` and `159-176`). -/
theorem zero_length_only_probe (cfg : Config) (active : Chan) (env : Env)
    (hC : 0 < cfg.buffercapacity) (hL : 0 ≤ env.filelen) (hf : cfg.filename ≠ []) :
    ProbeOnlySpec cfg active env := by
  refine ⟨?_, fun p hp => (chunkPairs_mem _ _ hC p hp).2.2.2.1,
    chunkPairs_sum _ _ hC hL⟩
  have hprobe : (reqRep active (Msg.fileMsg 0 0 cfg.filename)
      (sizeof_filemsg + cfg.filename.length + 1) sizeof_int64).filter isZeroFileWrite =
      [Event.write active (Msg.fileMsg 0 0 cfg.filename)
        (sizeof_filemsg + cfg.filename.length + 1)] := by
    simp [reqRep, isZeroFileWrite]
  cases ho : env.ofs2Open with
  | false =>
    rw [fileEvents_fst_noOpen cfg active env hf ho]
    exact hprobe
  | true =>
    rw [fileEvents_fst_open cfg active env hf ho]
    have hrest : ((chunkPairs cfg.buffercapacity env.filelen).flatMap (fun pr =>
        reqRep active (Msg.fileMsg pr.1 pr.2 cfg.filename)
          (sizeof_filemsg + cfg.filename.length + 1) pr.2.toNat)).filter
          isZeroFileWrite = [] := by
      apply filter_flatMap_nil
      intro pr hpr
      have h1 := (chunkPairs_mem _ _ hC pr hpr).2.2.2.1
      have hne : ¬ (pr.2 = 0) := by omega
      simp [reqRep, isZeroFileWrite, hne]
    rw [List.filter_append, hprobe, hrest, List.append_nil]

theorem zero_length_only_probe_witness :
    0 < ({ filename := [97], buffercapacity := 4 } : Config).buffercapacity ∧
      0 ≤ ({ filelen := 10 } : Env).filelen ∧
      ({ filename := [97], buffercapacity := 4 } : Config).filename ≠ [] ∧
      ProbeOnlySpec { filename := [97], buffercapacity := 4 } Chan.control { filelen := 10 } :=
  ⟨by decide, by decide, by decide,
    zero_length_only_probe { filename := [97], buffercapacity := 4 } Chan.control
      { filelen := 10 } (by decide) (by decide) (by decide)⟩

theorem reqRep_noChunk (ch : Chan) (m : Msg) (wl rl : Nat)
    (hm : ∀ o l f, m ≠ Msg.fileMsg o l f) :
    ∀ e ∈ reqRep ch m wl rl, isChunkFileWrite e = false := by
  intro e he
  simp [reqRep] at he
  rcases he with he | he <;> subst he
  · cases m with
    | newchannelMsg => rfl
    | quitMsg => rfl
    | dataMsg p s g => rfl
    | fileMsg o l f => exact absurd rfl (hm o l f)
  · rfl

theorem newchannelEvents_noChunk (cfg : Config) :
    ∀ e ∈ newchannelEvents cfg, isChunkFileWrite e = false := by
  unfold newchannelEvents
  split
  · exact reqRep_noChunk _ _ _ _ (fun o l f h => Msg.noConfusion h)
  · intro e he; simp at he

theorem dataEvents_noChunk (cfg : Config) (active : Chan) (env : Env) :
    ∀ e ∈ (dataEvents cfg active env).1, isChunkFileWrite e = false := by
  unfold dataEvents
  split
  · exact reqRep_noChunk _ _ _ _ (fun o l f h => Msg.noConfusion h)
  · split
    · split
      · intro e he
        simp only [List.mem_flatMap] at he
        obtain ⟨i, hi, hmem⟩ := he
        simp only [List.mem_append] at hmem
        rcases hmem with hmem | hmem
        · exact reqRep_noChunk _ _ _ _ (fun o l f h => Msg.noConfusion h) e hmem
        · exact reqRep_noChunk _ _ _ _ (fun o l f h => Msg.noConfusion h) e hmem
      · intro e he; simp at he
    · intro e he; simp at he

theorem fileEvents_noChunk_of_neg (cfg : Config) (active : Chan) (env : Env)
    (hneg : env.filelen ≤ 0) :
    ∀ e ∈ (fileEvents cfg active env).1, isChunkFileWrite e = false := by
  have hprobe : ∀ e ∈ reqRep active (Msg.fileMsg 0 0 cfg.filename)
      (sizeof_filemsg + cfg.filename.length + 1) sizeof_int64,
      isChunkFileWrite e = false := by
    intro e he
    simp [reqRep] at he
    rcases he with he | he <;> subst he <;> rfl
  by_cases hf : cfg.filename ≠ []
  · cases ho : env.ofs2Open with
    | true =>
      intro e he
      rw [fileEvents_fst_open cfg active env hf ho,
        chunkPairs_nil_of_nonpos _ _ hneg] at he
      simp only [List.mem_append] at he
      rcases he with he | he
      · exact hprobe e he
      · simp only [List.mem_flatMap] at he
        obtain ⟨pr, hpr, _⟩ := he
        simp at hpr
    | false =>
      intro e he
      rw [fileEvents_fst_noOpen cfg active env hf ho] at he
      exact hprobe e he
  · unfold fileEvents
    rw [if_neg hf]
    intro e he
    simp at he

/-- C5 counterexample: the client is run for file `[102]` and the server
answers the length probe with the sentinel `-1` (file not found).  The
claim says the error is propagated and the file is never silently
treated as zero-length; in fact the run issues the probe, issues no
chunk request (an empty output), and exits with status 0 — no failure
is surfaced to the caller. -/
theorem missing_file_silently_empty :
    (clientRun { filename := [102] } { filelen := -1 }).exitCode = 0 ∧
      (clientRun { filename := [102] } { filelen := -1 }).trace.filter
        isChunkFileWrite = [] ∧
      (clientRun { filename := [102] } { filelen := -1 }).trace.filter
        isFileWrite ≠ [] := by
  decide

/-- C5 amended: when the server replies to the length probe with a
negative sentinel length, a run that reaches the file section with an
openable output file issues no chunk request (the output stays empty)
and exits with status 0: the sentinel is not detected and no error is
propagated to the caller (`client.cpp:144-159` has no check on
`filelen`). -/
theorem missing_file_sentinel_behavior (cfg : Config) (env : Env)
    (hC : 0 < cfg.buffercapacity) (hneg : env.filelen < 0)
    (hd : (dataEvents cfg (activeChan cfg env) env).2 = false)
    (ho : env.ofs2Open = true) :
    (clientRun cfg env).exitCode = 0 ∧
      (clientRun cfg env).trace.filter isChunkFileWrite = [] := by
  have hfsnd := fileEvents_snd_open cfg (activeChan cfg env) env ho
  unfold clientRun
  rw [if_neg (by simp [hd]), if_neg (by simp [hfsnd])]
  refine ⟨rfl, filter_eq_nil_of _ _ ?_⟩
  intro e he
  simp only [List.mem_append] at he
  rcases he with ((he | he) | he) | he
  · exact newchannelEvents_noChunk cfg e he
  · exact dataEvents_noChunk cfg (activeChan cfg env) env e he
  · exact fileEvents_noChunk_of_neg cfg (activeChan cfg env) env (by omega) e he
  · simp at he; subst he; rfl

theorem missing_file_sentinel_behavior_witness :
    0 < ({ filename := [102] } : Config).buffercapacity ∧
      ({ filelen := -1 } : Env).filelen < 0 ∧
      (dataEvents { filename := [102] }
        (activeChan { filename := [102] } { filelen := -1 }) { filelen := -1 }).2 = false ∧
      ({ filelen := -1 } : Env).ofs2Open = true ∧
      ((clientRun { filename := [102] } { filelen := -1 }).exitCode = 0 ∧
        (clientRun { filename := [102] } { filelen := -1 }).trace.filter
          isChunkFileWrite = []) :=
  ⟨by decide, by decide, by decide, by decide,
    missing_file_sentinel_behavior { filename := [102] } { filelen := -1 }
      (by decide) (by decide) (by decide) (by decide)⟩

/-- C6 counterexample: with `-p 3` (bulk mode) and the CSV output file
failing to open, `client.cpp:97` returns 1 before any channel
operation: the run's trace contains no QUIT write at all, refuting
"a terminating QUIT is sent ... including on early-return/error exit
paths". -/
theorem quit_on_all_paths_counterexample :
    (clientRun { p := 3 } { ofsOpen := false }).trace.filter isQuitWrite = [] ∧
      (clientRun { p := 3 } { ofsOpen := false }).exitCode = 1 := by
  decide

/-- C6 amended: a QUIT is written on the active channel as the very last
operation of every run that completes normally (exit code 0); on the
early-return error paths (exit code 1, an output file failed to open)
the client exits without sending any QUIT
(`client.cpp:95-98`, `153-156`, `190-192`). -/
theorem quit_on_normal_exit (cfg : Config) (env : Env) (hC : 0 < cfg.buffercapacity) :
    ((clientRun cfg env).exitCode = 0 →
      (clientRun cfg env).trace.getLast? =
        some (Event.write (activeChan cfg env) Msg.quitMsg sizeof_MESSAGE_TYPE)) ∧
    ((clientRun cfg env).exitCode = 1 →
      (clientRun cfg env).trace.filter isQuitWrite = []) := by
  have hP := blocks_newchannelEvents cfg
  have hD := blocks_dataEvents cfg (activeChan cfg env) env
  have hF := blocks_fileEvents cfg (activeChan cfg env) env
  rcases clientRun_shape cfg env with ⟨h1 | h1, h2⟩ | ⟨h1, h2⟩
  · refine ⟨fun h0 => absurd (h2.symm.trans h0) (by decide), fun _ => ?_⟩
    rw [h1]
    exact filter_eq_nil_of _ _ (hP.append hD).noQuit
  · refine ⟨fun h0 => absurd (h2.symm.trans h0) (by decide), fun _ => ?_⟩
    rw [h1]
    exact filter_eq_nil_of _ _ ((hP.append hD).append hF).noQuit
  · refine ⟨fun _ => ?_, fun h1' => absurd (h2.symm.trans h1') (by decide)⟩
    rw [h1]
    exact List.getLast?_concat _

theorem quit_on_normal_exit_witness :
    0 < ({} : Config).buffercapacity ∧
      (((clientRun {} {}).exitCode = 0 →
        (clientRun {} {}).trace.getLast? =
          some (Event.write (activeChan {} {}) Msg.quitMsg sizeof_MESSAGE_TYPE)) ∧
      ((clientRun {} {}).exitCode = 1 →
        (clientRun {} {}).trace.filter isQuitWrite = [])) :=
  ⟨by decide, quit_on_normal_exit {} {} (by decide)⟩

/-- C7 counterexample: capacity 1 is a positive startup capacity, yet
the run writes requests larger than 1 byte (the FILE length probe is
`sizeof(filemsg) + strlen + 1` bytes): the session capacity does not
bound the maximum single write. -/
theorem capacity_bounds_every_write_counterexample :
    0 < ({ filename := [97], buffercapacity := 1 } : Config).buffercapacity ∧
      ¬ (∀ e ∈ (clientRun { filename := [97], buffercapacity := 1 } {}).trace,
          e.isWrite = true →
          e.len ≤ ({ filename := [97], buffercapacity := 1 } : Config).buffercapacity.toNat) := by
  decide

/-- C7 amended: the buffer capacity is a startup configuration input
defaulting to the implementation constant `MAX_MESSAGE`
(`client.cpp:26,45-47`); it is the single session constant that bounds
the per-iteration file-chunk size, and under a positive capacity the
chunk-length computation of the loop never produces a non-positive
chunk.  (It does not bound every single request write: FILE requests
are `sizeof(filemsg) + strlen + 1` bytes regardless of the capacity —
see the counterexample.) -/
theorem capacity_default_and_chunk_bound (C L : Int) (hC : 0 < C) :
    ({} : Config).buffercapacity = MAX_MESSAGE ∧ 0 < MAX_MESSAGE ∧ ChunkBoundSpec C L := by
  refine ⟨rfl, by decide, fun p hp => ?_⟩
  have h := chunkPairs_mem C L hC p hp
  exact ⟨by omega, h.2.2.2.2⟩

theorem capacity_default_and_chunk_bound_witness :
    (0 : Int) < 4 ∧
      (({} : Config).buffercapacity = MAX_MESSAGE ∧ 0 < MAX_MESSAGE ∧ ChunkBoundSpec 4 10) :=
  ⟨by decide, capacity_default_and_chunk_bound 4 10 (by decide)⟩

/-- C9: when a new channel is requested with `-c`, the client switches
all subsequent requests to the newly created channel
(`active_chan`, `client.cpp:62,77`), the terminating QUIT is sent only
on that new channel, and the well-known control channel never receives
a QUIT before the process exits. -/
theorem newchannel_switch (cfg : Config) (env : Env) (hC : 0 < cfg.buffercapacity)
    (hc : cfg.c = true) : NewChannelSwitchSpec cfg env := by
  have hactive : activeChan cfg env = Chan.newchan (cstring (env.reply30.take 30)) := by
    simp [activeChan, hc]
  have hne : activeChan cfg env ≠ Chan.control := by
    rw [hactive]
    intro h
    cases h
  have hpre : newchannelEvents cfg =
      [Event.write Chan.control Msg.newchannelMsg sizeof_MESSAGE_TYPE,
        Event.read Chan.control 30] := by
    simp [newchannelEvents, hc, reqRep]
  have hP := blocks_newchannelEvents cfg
  have hD := blocks_dataEvents cfg (activeChan cfg env) env
  have hF := blocks_fileEvents cfg (activeChan cfg env) env
  have hquit : ∀ e ∈ (clientRun cfg env).trace, isQuitWrite e = true →
      e = Event.write (activeChan cfg env) Msg.quitMsg sizeof_MESSAGE_TYPE := by
    rcases clientRun_shape cfg env with ⟨h1 | h1, _⟩ | ⟨h1, _⟩ <;> rw [h1] <;> intro e he hq
    · exact absurd ((((hP.append hD)).noQuit e he).symm.trans hq) (by decide)
    · exact absurd ((((hP.append hD).append hF).noQuit e he).symm.trans hq) (by decide)
    · rw [List.mem_append] at he
      rcases he with he | he
      · exact absurd ((((hP.append hD).append hF).noQuit e he).symm.trans hq) (by decide)
      · simp at he
        exact he
  have hdrop : ∀ e ∈ (clientRun cfg env).trace.drop 2, e.chan = activeChan cfg env := by
    have hd := dataEvents_chan cfg (activeChan cfg env) env
    have hf := fileEvents_chan cfg (activeChan cfg env) env
    rcases clientRun_shape cfg env with ⟨h1 | h1, _⟩ | ⟨h1, _⟩ <;>
      rw [h1, hpre] <;>
      simp only [List.append_assoc, List.cons_append, List.nil_append,
        List.drop_succ_cons, List.drop_zero] <;>
      intro e he
    · exact hd e he
    · rw [List.mem_append] at he
      rcases he with he | he
      · exact hd e he
      · exact hf e he
    · rw [List.mem_append] at he
      rcases he with he | he
      · exact hd e he
      · rw [List.mem_append] at he
        rcases he with he | he
        · exact hf e he
        · simp at he
          subst he
          rfl
  refine ⟨hdrop, hquit, ?_, hne⟩
  intro e he hcontrol
  cases hq : isQuitWrite e with
  | false => rfl
  | true =>
    rw [hquit e he hq] at hcontrol
    exact absurd (hcontrol.symm.trans rfl) (fun h => hne h.symm)

theorem newchannel_switch_witness :
    0 < ({ c := true } : Config).buffercapacity ∧ ({ c := true } : Config).c = true ∧
      NewChannelSwitchSpec { c := true } {} :=
  ⟨by decide, by decide, newchannel_switch { c := true } {} (by decide) (by decide)⟩

/-- C10: after sending a NEWCHANNEL request — written as exactly the
fixed-width type tag, `client.cpp:67-69` — the client reads the reply
as a fixed 30-byte block whatever the negotiated capacity is, and takes
the new channel's name to be the bytes up to the first NUL within that
block (`client.cpp:71-74`). -/
theorem newchannel_exchange (cfg : Config) (env : Env) (hc : cfg.c = true) :
    NewChannelCreateSpec cfg env := by
  have hpre : newchannelEvents cfg =
      [Event.write Chan.control Msg.newchannelMsg sizeof_MESSAGE_TYPE,
        Event.read Chan.control 30] := by
    simp [newchannelEvents, hc, reqRep]
  refine ⟨?_, rfl, by simp [activeChan, hc, cstring_eq_takeWhile]⟩
  rcases clientRun_shape cfg env with ⟨h1 | h1, _⟩ | ⟨h1, _⟩ <;>
    rw [h1, hpre] <;>
    simp [List.append_assoc, List.cons_append, List.take_succ_cons, List.take_zero]

theorem newchannel_exchange_witness :
    ({ c := true } : Config).c = true ∧ NewChannelCreateSpec { c := true } {} :=
  ⟨by decide, newchannel_exchange { c := true } {} (by decide)⟩


